import Mathlib

/-!
Verification of the altloc-resolution core of meeko/utils/rdkitutils.py.

The embedding follows the source closely:
  - AtomField          : the class AtomField (element normalization, lookup)
  - _build_rdkit_mol_for_altloc : GraphBuilder (node/coordinate/index-map)
  - build_one_rdkit_mol_per_altloc : AltlocPartitioner
  - _aux_altloc_mol_build : AltlocResolver decision chain and the
    nitrogen-charge heuristic applied after connectivity inference.

Floating point coordinates are modelled as rationals: the source never does
arithmetic on them, it only copies them. The RDKit periodic-table lookup, the
connectivity-inference service and the sanitizer are external collaborators;
the lookup is a parameter, the inferred bond set is a parameter of the charge
heuristic. Option models Python None; a Python string argument that may be
None is an Option String, and Python truthiness of a string is captured by
the definition truthy below.
-/

/-- A 3-D coordinate triple, as stored in the RDKit conformer. -/
abbrev Point3 : Type := ℚ × ℚ × ℚ

/-- The data of class AtomField after construction: all constructor arguments
are stored, the element symbol is replaced by the looked-up atomic number. -/
structure AtomField where
  atomname : String
  altloc : String
  resname : String
  chain : String
  resnum : Int
  icode : String
  x : ℚ
  y : ℚ
  z : ℚ
  atomic_nr : Nat
deriving DecidableEq, Repr

/-- The element-symbol normalization in AtomField.__init__: a symbol of
length greater than one keeps only its first character upper-cased and its
second character lower-cased; a shorter symbol is upper-cased whole
(character-wise, as Python str.upper does on ASCII symbols). -/
def normalizeElement (element : String) : String :=
  match element.data with
  | c1 :: c2 :: _ => String.mk [c1.toUpper, c2.toLower]
  | _ => String.mk (element.data.map Char.toUpper)

/-- AtomField.__init__: the atomic number comes from the external periodic
table service applied to the normalized element symbol; a failed lookup is a
failed construction (the exception propagates). -/
def mkAtomField (getAtomicNumber : String → Option Nat)
    (atomname altloc resname chain : String) (resnum : Int) (icode : String)
    (x y z : ℚ) (element : String) : Option AtomField :=
  (getAtomicNumber (normalizeElement element)).map
    (fun n => ⟨atomname, altloc, resname, chain, resnum, icode, x, y, z, n⟩)

/-- One RDKit atom as created by _build_rdkit_mol_for_altloc: atomic number,
formal charge (0 on creation, Chem.Atom default) and the PDB residue info. -/
structure RdAtom where
  atomic_nr : Nat
  charge : Int
  atomname : String
  resname : String
  resnum : Int
  chain : String
  icode : String
deriving DecidableEq, Repr

/-- The atom created for one AtomField in _build_rdkit_mol_for_altloc. -/
def mkRdAtom (a : AtomField) : RdAtom :=
  ⟨a.atomic_nr, 0, a.atomname, a.resname, a.resnum, a.chain, a.icode⟩

/-- The molecule built by _build_rdkit_mol_for_altloc: its atoms in insertion
order and the conformer positions, parallel to the atoms. -/
structure Mol where
  atoms : List RdAtom
  positions : List Point3
deriving DecidableEq, Repr

/-- The idx_to_rdkit mapping: pairs (position in the input list, position in
the built molecule), in insertion order. -/
abbrev IndexMap : Type := List (Nat × Nat)

/-- The filter in the loop of _build_rdkit_mol_for_altloc: an atom is skipped
exactly when wanted_altloc is not None and the atom's altloc is a non-empty
string different from wanted_altloc. -/
def keepAtom (wanted_altloc : Option String) (a : AtomField) : Bool :=
  match wanted_altloc with
  | none => true
  | some w => !(a.altloc != "" && a.altloc != w)

/-- The loop of _build_rdkit_mol_for_altloc: index_list enumerates the input,
index_rdkit counts the atoms actually added. -/
def buildAux (wanted_altloc : Option String) :
    List AtomField → Nat → Nat → List RdAtom × List Point3 × IndexMap
  | [], _, _ => ([], [], [])
  | a :: rest, index_list, index_rdkit =>
    if keepAtom wanted_altloc a then
      let t := buildAux wanted_altloc rest (index_list + 1) (index_rdkit + 1)
      (mkRdAtom a :: t.1, (a.x, a.y, a.z) :: t.2.1,
        (index_list, index_rdkit) :: t.2.2)
    else
      buildAux wanted_altloc rest (index_list + 1) index_rdkit

/-- _build_rdkit_mol_for_altloc: the molecule together with idx_to_rdkit. -/
def _build_rdkit_mol_for_altloc (atom_fields_list : List AtomField)
    (wanted_altloc : Option String) : Mol × IndexMap :=
  let t := buildAux wanted_altloc atom_fields_list 0 0
  (⟨t.1, t.2.1⟩, t.2.2)

/-- The set comprehension in build_one_rdkit_mol_per_altloc: the distinct
non-empty (truthy) altloc tags, in order of first appearance. -/
def altlocsOf (atom_fields_list : List AtomField) : List String :=
  ((atom_fields_list.filter (fun a => a.altloc != "")).map
    (fun a => a.altloc)).dedup

/-- One value of the dictionary returned by build_one_rdkit_mol_per_altloc. -/
abbrev MolIdx : Type := Mol × IndexMap

/-- The dictionary returned by build_one_rdkit_mol_per_altloc, keyed by
altloc tag, with the Python None key modelled as none. -/
abbrev MolDict : Type := List (Option String × MolIdx)

/-- The key list of a MolDict. -/
def keys (d : MolDict) : List (Option String) := d.map Prod.fst

/-- Python membership test (key in dict). -/
def hasKey (d : MolDict) (k : Option String) : Bool := (keys d).contains k

/-- build_one_rdkit_mol_per_altloc: one molecule per distinct non-empty
altloc tag, or a single molecule under the None key when no tag exists. -/
def build_one_rdkit_mol_per_altloc (atom_fields_list : List AtomField) :
    MolDict :=
  let altlocs := altlocsOf atom_fields_list
  if altlocs.isEmpty then
    [(none, _build_rdkit_mol_for_altloc atom_fields_list none)]
  else
    altlocs.map
      (fun t => (some t, _build_rdkit_mol_for_altloc atom_fields_list (some t)))

/-- The outcome of the altloc resolution part of _aux_altloc_mol_build:
the selected molecule (None when selection failed) and the two flags. -/
structure ResolveResult where
  mol : Option MolIdx
  missed_altloc : Bool
  needed_altloc : Bool
deriving DecidableEq, Repr

/-- Python truthiness of an optional string: None and the empty string are
falsy, every other string is truthy. -/
def truthy : Option String → Bool
  | none => false
  | some s => s != ""

/-- The decision chain of _aux_altloc_mol_build, branch for branch. The
assignment needed_altoc = False in the third branch of the source is a typo
creating an unused local variable, so that branch leaves needed_altloc at its
initial value False, which is what the embedding records. The terminal
else-branch raises RuntimeError in the source and is modelled as none. -/
def _aux_altloc_mol_build (atom_field_list : List AtomField)
    (requested_altloc allowed_altloc : Option String) : Option ResolveResult :=
  let mols_dict := build_one_rdkit_mol_per_altloc atom_field_list
  let has_altloc := !(hasKey mols_dict none)
  if has_altloc && requested_altloc.isNone && allowed_altloc.isNone then
    some ⟨none, false, true⟩
  else if truthy requested_altloc && hasKey mols_dict requested_altloc then
    some ⟨List.lookup requested_altloc mols_dict, false, false⟩
  else if truthy requested_altloc && !(hasKey mols_dict requested_altloc) then
    some ⟨none, true, false⟩
  else if truthy allowed_altloc && hasKey mols_dict allowed_altloc then
    some ⟨List.lookup allowed_altloc mols_dict, false, false⟩
  else if has_altloc && !(hasKey mols_dict allowed_altloc) then
    some ⟨none, false, true⟩
  else if !has_altloc && requested_altloc.isNone then
    some ⟨List.lookup none mols_dict, false, false⟩
  else
    none

/-- The number of neighbors an atom index has in an inferred bond set (the
bond set comes from the external connectivity-inference service). -/
def degree (bonds : List (Nat × Nat)) (i : Nat) : Nat :=
  (bonds.filter (fun b => b.1 == i || b.2 == i)).length

/-- The body of the charge-correction loop in _aux_altloc_mol_build: a
nitrogen with exactly four inferred neighbors gets formal charge +1, every
other atom is left unchanged. -/
def charge_rule (bonds : List (Nat × Nat)) (i : Nat) (a : RdAtom) : RdAtom :=
  if a.atomic_nr == 7 && degree bonds i == 4 then { a with charge := 1 } else a

/-- The charge-correction loop of _aux_altloc_mol_build over the atom list,
carrying the atom index. -/
def set_nitrogen_charges (bonds : List (Nat × Nat)) :
    List RdAtom → Nat → List RdAtom
  | [], _ => []
  | a :: rest, i => charge_rule bonds i a :: set_nitrogen_charges bonds rest (i + 1)

/-! ### Concrete fixtures used by witnesses and counterexamples -/

/-- A nitrogen atom record with no altloc tag. -/
def atomE : AtomField := ⟨"N", "", "LYS", "A", 1, "", 0, 0, 0, 7⟩

/-- A carbon atom record with altloc tag A. -/
def atomA : AtomField := ⟨"CA", "A", "LYS", "A", 1, "", 1, 0, 0, 6⟩

/-- A carbon atom record with altloc tag B. -/
def atomB : AtomField := ⟨"CA", "B", "LYS", "A", 1, "", 2, 0, 0, 6⟩

/-- A concrete instance of the external element-lookup service, standing in
for the RDKit periodic table in witnesses. -/
def elementTableFixture : String → Option Nat := fun s =>
  if s = "H" then some 1
  else if s = "C" then some 6
  else if s = "N" then some 7
  else if s = "O" then some 8
  else if s = "Cl" then some 17
  else none

/-! ### Helper lemmas -/

/-- A key contained in the key list of an association list is found by
List.lookup. -/
theorem lookup_isSome_of_hasKey (d : MolDict) (k : Option String)
    (h : hasKey d k = true) : (List.lookup k d).isSome = true := by
  induction d with
  | nil => simp [hasKey, keys] at h
  | cons p rest ih =>
    obtain ⟨k', v⟩ := p
    simp only [hasKey, keys, List.map_cons, List.contains_cons] at h
    rw [List.lookup]
    cases hk : k == k' with
    | true => simp
    | false =>
      apply ih
      rcases (Bool.or_eq_true _ _).mp h with h1 | h1
      · rw [hk] at h1; exact absurd h1 (by simp)
      · simpa [hasKey, keys] using h1

/-- The atoms built by the loop are exactly the kept records, in order. -/
theorem buildAux_atoms (wanted_altloc : Option String) :
    ∀ (l : List AtomField) (i j : Nat),
      (buildAux wanted_altloc l i j).1
        = (l.filter (keepAtom wanted_altloc)).map mkRdAtom := by
  intro l
  induction l with
  | nil => intro i j; rfl
  | cons a rest ih =>
    intro i j
    by_cases h : keepAtom wanted_altloc a
    · simp [buildAux, h, List.filter_cons, ih]
    · simp [buildAux, h, List.filter_cons, ih]

/-- The positions built by the loop are the coordinates of the kept records,
in order. -/
theorem buildAux_positions (wanted_altloc : Option String) :
    ∀ (l : List AtomField) (i j : Nat),
      (buildAux wanted_altloc l i j).2.1
        = (l.filter (keepAtom wanted_altloc)).map (fun a => (a.x, a.y, a.z)) := by
  intro l
  induction l with
  | nil => intro i j; rfl
  | cons a rest ih =>
    intro i j
    by_cases h : keepAtom wanted_altloc a
    · simp [buildAux, h, List.filter_cons, ih]
    · simp [buildAux, h, List.filter_cons, ih]

/-- With a wanted altloc, the loop keeps exactly the records whose altloc is
empty or equal to it. -/
theorem keepAtom_some (w : String) (a : AtomField) :
    keepAtom (some w) a = (a.altloc == "" || a.altloc == w) := by
  cases h1 : a.altloc == "" <;> cases h2 : a.altloc == w <;>
    simp [keepAtom, bne, h1, h2]

/-- With no wanted altloc, the loop keeps every record. -/
theorem keepAtom_none (a : AtomField) : keepAtom none a = true := rfl

/-- Every entry of the index map built from start indices i and j has its
original position at least i and its molecule position at least j. -/
theorem buildAux_map_lb (wanted_altloc : Option String) :
    ∀ (l : List AtomField) (i j : Nat),
      ∀ p ∈ (buildAux wanted_altloc l i j).2.2, i ≤ p.1 ∧ j ≤ p.2 := by
  intro l
  induction l with
  | nil => intro i j p hp; simp [buildAux] at hp
  | cons a rest ih =>
    intro i j p hp
    by_cases h : keepAtom wanted_altloc a
    · simp only [buildAux, h, if_true, List.mem_cons] at hp
      rcases hp with rfl | hp
      · exact ⟨Nat.le_refl i, Nat.le_refl j⟩
      · have := ih (i + 1) (j + 1) p hp
        omega
    · simp only [buildAux, h, if_false] at hp
      have := ih (i + 1) j p hp
      omega

/-- Every entry of the index map points at a record of the input list and at
that record's coordinates in the built position list. -/
theorem buildAux_map_coords (wanted_altloc : Option String) :
    ∀ (l : List AtomField) (i j : Nat),
      ∀ p ∈ (buildAux wanted_altloc l i j).2.2,
        ∃ a, l.get? (p.1 - i) = some a ∧
          (buildAux wanted_altloc l i j).2.1.get? (p.2 - j)
            = some (a.x, a.y, a.z) := by
  intro l
  induction l with
  | nil => intro i j p hp; simp [buildAux] at hp
  | cons a rest ih =>
    intro i j p hp
    by_cases h : keepAtom wanted_altloc a
    · simp only [buildAux, h, if_true, List.mem_cons] at hp
      rcases hp with rfl | hp
      · refine ⟨a, ?_, ?_⟩
        · simp
        · simp [buildAux, h]
      · obtain ⟨hi, hj⟩ := buildAux_map_lb wanted_altloc rest (i + 1) (j + 1) p hp
        obtain ⟨b, hb1, hb2⟩ := ih (i + 1) (j + 1) p hp
        refine ⟨b, ?_, ?_⟩
        · rw [show p.1 - i = (p.1 - (i + 1)) + 1 by omega]
          simpa using hb1
        · simp only [buildAux, h, if_true]
          rw [show p.2 - j = (p.2 - (j + 1)) + 1 by omega]
          simpa using hb2
    · simp only [buildAux, h, if_false] at hp
      obtain ⟨hi, hj⟩ := buildAux_map_lb wanted_altloc rest (i + 1) j p hp
      obtain ⟨b, hb1, hb2⟩ := ih (i + 1) j p hp
      refine ⟨b, ?_, ?_⟩
      · rw [show p.1 - i = (p.1 - (i + 1)) + 1 by omega]
        simpa using hb1
      · simp only [buildAux, h, if_false]
        exact hb2

/-- Two entries of the index map with the same molecule position are the same
entry. -/
theorem buildAux_map_inj (wanted_altloc : Option String) :
    ∀ (l : List AtomField) (i j : Nat),
      ∀ p ∈ (buildAux wanted_altloc l i j).2.2,
        ∀ q ∈ (buildAux wanted_altloc l i j).2.2, p.2 = q.2 → p = q := by
  intro l
  induction l with
  | nil => intro i j p hp; simp [buildAux] at hp
  | cons a rest ih =>
    intro i j p hp q hq heq
    by_cases h : keepAtom wanted_altloc a
    · simp only [buildAux, h, if_true, List.mem_cons] at hp hq
      rcases hp with rfl | hp <;> rcases hq with rfl | hq
      · rfl
      · obtain ⟨hi, hj⟩ := buildAux_map_lb wanted_altloc rest (i + 1) (j + 1) q hq
        omega
      · obtain ⟨hi, hj⟩ := buildAux_map_lb wanted_altloc rest (i + 1) (j + 1) p hp
        omega
      · exact ih (i + 1) (j + 1) p hp q hq heq
    · simp only [buildAux, h, if_false] at hp hq
      exact ih (i + 1) j p hp q hq heq

/-- The charge-correction loop applies the per-atom rule at the atom's index
and changes nothing else about the list. -/
theorem set_nitrogen_charges_get (bonds : List (Nat × Nat)) :
    ∀ (l : List RdAtom) (i0 i : Nat),
      (set_nitrogen_charges bonds l i0).get? i
        = (l.get? i).map (charge_rule bonds (i0 + i)) := by
  intro l
  induction l with
  | nil => intro i0 i; simp [set_nitrogen_charges]
  | cons a rest ih =>
    intro i0 i
    cases i with
    | zero => simp [set_nitrogen_charges]
    | succ n =>
      simp only [set_nitrogen_charges, List.get?_cons_succ, ih (i0 + 1) n]
      rw [show i0 + (n + 1) = i0 + 1 + n by omega]

/-- The key list of the partition: the sentinel alone when no tag exists,
otherwise the distinct tags. -/
theorem build_one_keys (atom_fields_list : List AtomField) :
    keys (build_one_rdkit_mol_per_altloc atom_fields_list)
      = if (altlocsOf atom_fields_list).isEmpty then [none]
        else (altlocsOf atom_fields_list).map some := by
  by_cases h : (altlocsOf atom_fields_list).isEmpty <;>
    simp [build_one_rdkit_mol_per_altloc, keys, h, List.map_map, Function.comp]

/-- Membership in the distinct-tag list: exactly the non-empty altloc values
carried by some record. -/
theorem altlocsOf_mem (atom_fields_list : List AtomField) (t : String) :
    t ∈ altlocsOf atom_fields_list
      ↔ t ≠ "" ∧ ∃ a ∈ atom_fields_list, a.altloc = t := by
  simp only [altlocsOf, List.mem_dedup, List.mem_map, List.mem_filter,
    bne_iff_ne, ne_eq]
  constructor
  · rintro ⟨a, ⟨ha, hne⟩, rfl⟩
    exact ⟨hne, a, ha, rfl⟩
  · rintro ⟨hne, a, ha, rfl⟩
    exact ⟨a, ⟨ha, hne⟩, rfl⟩

/-! ### The claims -/

/-- Claim C1: the decision table of _aux_altloc_mol_build is claimed to be
exhaustive, with the terminal catch-all (the RuntimeError branch, modelled as
none) never reached. The code violates this: for a record list with no
altloc variants and a requested_altloc that is the empty string (present but
falsy in Python), every branch guard fails and the catch-all is reached. -/
theorem C1_catchall_reached :
    _aux_altloc_mol_build [atomE] (some "") none = none := rfl

/-- Claim C2: when the partition has altloc variants (no sentinel key) and
both requested_altloc and allowed_altloc are absent, resolution returns no
molecule, with needed_altloc true and missed_altloc false. -/
theorem C2_needed_altloc (atom_field_list : List AtomField)
    (h : hasKey (build_one_rdkit_mol_per_altloc atom_field_list) none = false) :
    _aux_altloc_mol_build atom_field_list none none
      = some ⟨none, false, true⟩ := by
  simp [_aux_altloc_mol_build, h]

/-- Witness for C2: two records with altloc tags A and B give a partition
without the sentinel key, and resolving with no policy yields needed_altloc. -/
theorem C2_witness :
    _aux_altloc_mol_build [atomA, atomB] none none
      = some ⟨none, false, true⟩ :=
  C2_needed_altloc [atomA, atomB] rfl

/-- Counterexample to claim C3 as stated: requested_altloc = "" is present
(not None) and is not a key of the partition, yet resolution does not set
missed_altloc: because "" is falsy, the requested branches are skipped and
the allowed_altloc fallback selects a molecule. -/
theorem C3_counterexample :
    hasKey (build_one_rdkit_mol_per_altloc [atomE, atomA, atomB]) (some "")
        = false ∧
    (_aux_altloc_mol_build [atomE, atomA, atomB] (some "") (some "A")).map
        (fun r => (r.mol.isSome, r.missed_altloc, r.needed_altloc))
      = some (true, false, false) :=
  ⟨rfl, rfl⟩

/-- Claim C3 amended: for every present non-empty requested_altloc that is
not a key of the partition, resolution returns no molecule with
missed_altloc true (and needed_altloc false), regardless of allowed_altloc. -/
theorem C3_missed_altloc (atom_field_list : List AtomField) (s : String)
    (allowed_altloc : Option String) (hs : s ≠ "")
    (h : hasKey (build_one_rdkit_mol_per_altloc atom_field_list) (some s)
      = false) :
    _aux_altloc_mol_build atom_field_list (some s) allowed_altloc
      = some ⟨none, true, false⟩ := by
  simp [_aux_altloc_mol_build, truthy, h, hs]

/-- Witness for C3: requesting tag C against a partition with tags A and B
misses, even though allowed_altloc A would be available as a fallback. -/
theorem C3_witness :
    _aux_altloc_mol_build [atomE, atomA, atomB] (some "C") (some "A")
      = some ⟨none, true, false⟩ :=
  C3_missed_altloc [atomE, atomA, atomB] "C" (some "A") (by decide) rfl

/-- A result that carries a molecule and both flags false satisfies the
exactly-one-flag property trivially in its second part and vacuously in its
first part. -/
theorem flags_ok_of_isSome (m : Option MolIdx) (hm : m.isSome = true) :
    ((ResolveResult.mk m false false).mol.isNone = true →
      ((ResolveResult.mk m false false).missed_altloc = true ∧
        (ResolveResult.mk m false false).needed_altloc = false) ∨
      ((ResolveResult.mk m false false).missed_altloc = false ∧
        (ResolveResult.mk m false false).needed_altloc = true)) ∧
    ((ResolveResult.mk m false false).mol.isSome = true →
      (ResolveResult.mk m false false).missed_altloc = false ∧
        (ResolveResult.mk m false false).needed_altloc = false) := by
  constructor
  · intro hnone
    exfalso
    cases m with
    | none => simp at hm
    | some v =>
      have h' : (some v : Option MolIdx).isNone = true := hnone
      simp at h'
  · intro _
    exact ⟨rfl, rfl⟩

/-- Claim C4: on every return of _aux_altloc_mol_build, exactly one of
missed_altloc and needed_altloc is true when no molecule is produced, and
both are false when a molecule is produced. The needed_altoc typo in the
source's third branch leaves needed_altloc at its initial value False there,
so the property holds on every value the function actually returns. -/
theorem C4_flags (atom_field_list : List AtomField)
    (requested_altloc allowed_altloc : Option String) (r : ResolveResult)
    (h : _aux_altloc_mol_build atom_field_list requested_altloc allowed_altloc
      = some r) :
    (r.mol.isNone = true →
      (r.missed_altloc = true ∧ r.needed_altloc = false) ∨
      (r.missed_altloc = false ∧ r.needed_altloc = true)) ∧
    (r.mol.isSome = true →
      r.missed_altloc = false ∧ r.needed_altloc = false) := by
  simp only [_aux_altloc_mol_build] at h
  split_ifs at h with h1 h2 h3 h4 h5 h6
  · simp only [Option.some.injEq] at h
    subst h
    simp
  · simp only [Option.some.injEq] at h
    subst h
    have hk := (Bool.and_eq_true _ _).mp h2
    exact flags_ok_of_isSome _ (lookup_isSome_of_hasKey _ _ hk.2)
  · simp only [Option.some.injEq] at h
    subst h
    simp
  · simp only [Option.some.injEq] at h
    subst h
    have hk := (Bool.and_eq_true _ _).mp h4
    exact flags_ok_of_isSome _ (lookup_isSome_of_hasKey _ _ hk.2)
  · simp only [Option.some.injEq] at h
    subst h
    simp
  · simp only [Option.some.injEq] at h
    subst h
    have hk := (Bool.and_eq_true _ _).mp h6
    have hkey : hasKey (build_one_rdkit_mol_per_altloc atom_field_list) none
        = true := by
      have h' := hk.1
      simp only [Bool.not_not] at h'
      exact h'
    exact flags_ok_of_isSome _ (lookup_isSome_of_hasKey _ _ hkey)

/-- Witness for C4: a missed request returns no molecule with exactly the
missed_altloc flag set. -/
theorem C4_witness :
    ((ResolveResult.mk none true false).mol.isNone = true →
      ((ResolveResult.mk none true false).missed_altloc = true ∧
        (ResolveResult.mk none true false).needed_altloc = false) ∨
      ((ResolveResult.mk none true false).missed_altloc = false ∧
        (ResolveResult.mk none true false).needed_altloc = true)) ∧
    ((ResolveResult.mk none true false).mol.isSome = true →
      (ResolveResult.mk none true false).missed_altloc = false ∧
        (ResolveResult.mk none true false).needed_altloc = false) :=
  C4_flags [atomE, atomA, atomB] (some "Z") none ⟨none, true, false⟩ rfl

/-- Counterexample to claim C5 as stated: with wanted_altloc unspecified
(None) the loop filters nothing, so a single record carrying altloc tag A is
included, while the claim demands that only empty-altloc records appear. -/
theorem C5_counterexample :
    (_build_rdkit_mol_for_altloc [atomA] none).1.atoms.length = 1 ∧
    ([atomA].filter (fun a => a.altloc == "")).length = 0 :=
  ⟨rfl, rfl⟩

/-- Claim C5 amended: with a wanted altloc the built molecule holds, in
input order, exactly the records whose altloc is empty or equals it, and its
atom count is the count of those records; with wanted_altloc unspecified
every record is included. -/
theorem C5_filter (atom_fields_list : List AtomField) (w : String) :
    (_build_rdkit_mol_for_altloc atom_fields_list (some w)).1.atoms
      = (atom_fields_list.filter
          (fun a => a.altloc == "" || a.altloc == w)).map mkRdAtom ∧
    (_build_rdkit_mol_for_altloc atom_fields_list none).1.atoms
      = atom_fields_list.map mkRdAtom ∧
    (_build_rdkit_mol_for_altloc atom_fields_list (some w)).1.atoms.length
      = (atom_fields_list.filter
          (fun a => a.altloc == "" || a.altloc == w)).length := by
  have hsome : (_build_rdkit_mol_for_altloc atom_fields_list (some w)).1.atoms
      = (atom_fields_list.filter
          (fun a => a.altloc == "" || a.altloc == w)).map mkRdAtom := by
    have h := buildAux_atoms (some w) atom_fields_list 0 0
    have hfun : keepAtom (some w) = fun a => (a.altloc == "" || a.altloc == w) :=
      funext (keepAtom_some w)
    rw [hfun] at h
    exact h
  refine ⟨hsome, ?_, ?_⟩
  · have h := buildAux_atoms none atom_fields_list 0 0
    have hfun : keepAtom (none : Option String) = fun _ => true :=
      funext keepAtom_none
    rw [hfun] at h
    simpa using h
  · rw [hsome, List.length_map]

/-- Claim C6: the partition has exactly the sentinel entry when no record
carries a non-empty altloc tag, and otherwise exactly one entry per distinct
non-empty tag with the sentinel key absent; the tag list characterizes the
non-empty altloc values of the input. -/
theorem C6_partition_keys (atom_fields_list : List AtomField) :
    keys (build_one_rdkit_mol_per_altloc atom_fields_list)
      = (if (altlocsOf atom_fields_list).isEmpty then [none]
         else (altlocsOf atom_fields_list).map some) ∧
    (keys (build_one_rdkit_mol_per_altloc atom_fields_list)).Nodup ∧
    (∀ t : String, t ∈ altlocsOf atom_fields_list
      ↔ t ≠ "" ∧ ∃ a ∈ atom_fields_list, a.altloc = t) := by
  refine ⟨build_one_keys atom_fields_list, ?_, altlocsOf_mem atom_fields_list⟩
  rw [build_one_keys atom_fields_list]
  by_cases h : (altlocsOf atom_fields_list).isEmpty
  · simp [h]
  · simp only [h, if_false]
    have hn : (altlocsOf atom_fields_list).Nodup := by
      unfold altlocsOf
      exact List.nodup_dedup _
    exact hn.map (Option.some_injective String)

/-- Claim C7: after connectivity inference (the inferred bond set is the
external service's output), a nitrogen atom of the built molecule with
exactly four neighbors is assigned formal charge +1 by the correction loop,
and a nitrogen with three neighbors keeps formal charge 0. -/
theorem C7_nitrogen_charge (atom_fields_list : List AtomField)
    (wanted_altloc : Option String) (bonds : List (Nat × Nat)) (i : Nat)
    (a : RdAtom)
    (ha : (_build_rdkit_mol_for_altloc atom_fields_list
      wanted_altloc).1.atoms.get? i = some a)
    (hn : a.atomic_nr = 7) :
    (degree bonds i = 4 →
      (set_nitrogen_charges bonds
        (_build_rdkit_mol_for_altloc atom_fields_list
          wanted_altloc).1.atoms 0).get? i = some { a with charge := 1 }) ∧
    (degree bonds i = 3 →
      (set_nitrogen_charges bonds
        (_build_rdkit_mol_for_altloc atom_fields_list
          wanted_altloc).1.atoms 0).get? i = some a ∧ a.charge = 0) := by
  have hget := set_nitrogen_charges_get bonds
    (_build_rdkit_mol_for_altloc atom_fields_list wanted_altloc).1.atoms 0 i
  rw [ha] at hget
  have hzero : a.charge = 0 := by
    have hatoms : (_build_rdkit_mol_for_altloc atom_fields_list
        wanted_altloc).1.atoms
        = (atom_fields_list.filter (keepAtom wanted_altloc)).map mkRdAtom :=
      buildAux_atoms wanted_altloc atom_fields_list 0 0
    rw [hatoms, List.get?_map] at ha
    cases hb : (atom_fields_list.filter (keepAtom wanted_altloc)).get? i with
    | none => rw [hb] at ha; simp at ha
    | some b =>
      rw [hb] at ha
      simp only [Option.map_some', Option.some.injEq] at ha
      rw [← ha]
      rfl
  constructor
  · intro hdeg
    rw [hget]
    simp [charge_rule, hn, hdeg]
  · intro hdeg
    refine ⟨?_, hzero⟩
    rw [hget]
    simp [charge_rule, hn, hdeg]

/-- Witness for C7: a nitrogen at index 0 with inferred bonds to four other
indices ends with charge +1, and would keep its charge 0 with three bonds. -/
theorem C7_witness :
    (degree [(0, 1), (0, 2), (0, 3), (0, 4)] 0 = 4 →
      (set_nitrogen_charges [(0, 1), (0, 2), (0, 3), (0, 4)]
        (_build_rdkit_mol_for_altloc [atomE] none).1.atoms 0).get? 0
        = some { mkRdAtom atomE with charge := 1 }) ∧
    (degree [(0, 1), (0, 2), (0, 3), (0, 4)] 0 = 3 →
      (set_nitrogen_charges [(0, 1), (0, 2), (0, 3), (0, 4)]
        (_build_rdkit_mol_for_altloc [atomE] none).1.atoms 0).get? 0
        = some (mkRdAtom atomE) ∧ (mkRdAtom atomE).charge = 0) :=
  C7_nitrogen_charge [atomE] none [(0, 1), (0, 2), (0, 3), (0, 4)] 0
    (mkRdAtom atomE) rfl rfl

/-- Claim C8: the idx_to_rdkit map of every build is injective (no two
distinct input positions share a molecule position), and every mapped
molecule position stores the coordinates of the record at the mapped input
position. -/
theorem C8_index_map (atom_fields_list : List AtomField)
    (wanted_altloc : Option String) :
    (∀ p ∈ (_build_rdkit_mol_for_altloc atom_fields_list wanted_altloc).2,
      ∀ q ∈ (_build_rdkit_mol_for_altloc atom_fields_list wanted_altloc).2,
        p.2 = q.2 → p.1 = q.1) ∧
    (∀ p ∈ (_build_rdkit_mol_for_altloc atom_fields_list wanted_altloc).2,
      ∃ a, atom_fields_list.get? p.1 = some a ∧
        (_build_rdkit_mol_for_altloc atom_fields_list
          wanted_altloc).1.positions.get? p.2 = some (a.x, a.y, a.z)) := by
  constructor
  · intro p hp q hq heq
    have h := buildAux_map_inj wanted_altloc atom_fields_list 0 0 p hp q hq heq
    rw [h]
  · intro p hp
    have h := buildAux_map_coords wanted_altloc atom_fields_list 0 0 p hp
    simpa using h

/-- Claim C9: a record whose element symbol the external lookup does not
know fails at construction: mkAtomField returns none, the failure is not
swallowed. -/
theorem C9_unknown_element (getAtomicNumber : String → Option Nat)
    (atomname altloc resname chain : String) (resnum : Int) (icode : String)
    (x y z : ℚ) (element : String)
    (h : getAtomicNumber (normalizeElement element) = none) :
    mkAtomField getAtomicNumber atomname altloc resname chain resnum icode
      x y z element = none := by
  simp [mkAtomField, h]

/-- Witness for C9: the symbol J names no element in the fixture table, so
construction fails. -/
theorem C9_witness :
    mkAtomField elementTableFixture "X1" "" "UNL" " " 1 "" 0 0 0 "J"
      = none :=
  C9_unknown_element elementTableFixture "X1" "" "UNL" " " 1 "" 0 0 0 "J" (by decide)

/-- Claim C10: for an element symbol of more than two characters only the
first two (first upper-cased, second lower-cased) reach the lookup; the rest
is discarded, so construction equals construction from the two-character
prefix and succeeds whenever the normalized prefix is a known symbol. -/
theorem C10_element_prefix (getAtomicNumber : String → Option Nat)
    (atomname altloc resname chain : String) (resnum : Int) (icode : String)
    (x y z : ℚ) (c1 c2 : Char) (rest : List Char) (hrest : rest ≠ []) :
    normalizeElement (String.mk (c1 :: c2 :: rest))
      = String.mk [c1.toUpper, c2.toLower] ∧
    mkAtomField getAtomicNumber atomname altloc resname chain resnum icode
        x y z (String.mk (c1 :: c2 :: rest))
      = mkAtomField getAtomicNumber atomname altloc resname chain resnum icode
        x y z (String.mk [c1, c2]) ∧
    ((getAtomicNumber (String.mk [c1.toUpper, c2.toLower])).isSome = true →
      (mkAtomField getAtomicNumber atomname altloc resname chain resnum icode
        x y z (String.mk (c1 :: c2 :: rest))).isSome = true) := by
  refine ⟨rfl, rfl, ?_⟩
  intro hsome
  simpa [mkAtomField, normalizeElement] using hsome

/-- Witness for C10: the seven-character symbol Cloride constructs the same
atom as its prefix Cl, chlorine in the fixture table. -/
theorem C10_witness :
    normalizeElement (String.mk ('C' :: 'l' :: "oride".data))
      = String.mk ['C'.toUpper, 'l'.toLower] ∧
    mkAtomField elementTableFixture "CL1" "" "UNL" " " 1 "" 0 0 0
        (String.mk ('C' :: 'l' :: "oride".data))
      = mkAtomField elementTableFixture "CL1" "" "UNL" " " 1 "" 0 0 0
        (String.mk ['C', 'l']) ∧
    ((elementTableFixture (String.mk ['C'.toUpper, 'l'.toLower])).isSome = true →
      (mkAtomField elementTableFixture "CL1" "" "UNL" " " 1 "" 0 0 0
        (String.mk ('C' :: 'l' :: "oride".data))).isSome = true) :=
  C10_element_prefix elementTableFixture "CL1" "" "UNL" " " 1 "" 0 0 0
    'C' 'l' "oride".data (by decide)
